import Mathlib

/-!
Shallow embedding of the YatzyBot match core (`game.py`, class `Game`).

Python exception semantics are made explicit: every mutating operation
returns the post-state together with `Except Err α`; side effects performed
before a `raise` persist in the returned state.  External collaborators
(the dice randomizer, the `Scoreboard` scoring engine, the roster shuffle,
the wall clock) are passed in as explicit arguments, constrained only at
their interface as the spec describes them.
-/

namespace Yatzy

/-- Participants are string-like display labels used as roster keys
(class `Player(UserString)` in the source). -/
abbrev Player := String

/-- Typed errors: one constructor per distinct raise site of `game.py`
(`PlayerError` messages) plus the construction-time `ValueError`. -/
inductive Err where
  | configError
  | notStarted
  | alreadyFinished
  | notYourTurn
  | alreadyRolled
  | noHand
  | selectionCount
  | selectionSingle
  | selectionRange
  | poolDup
  | poolAbsent
  | budgetExhausted
  | cannotAddStarted
  | alreadyJoined
  | cannotRemoveStarted
  | notInGame
  | ownerLeft
  | onlyOwner
  | startFinished
  | emptyRoster
  | moveViolation
  deriving DecidableEq, Repr

/-- The three guard errors raised by `chk_command_usable`. -/
def isTurnViolation : Err → Bool
  | Err.notStarted => true
  | Err.alreadyFinished => true
  | Err.notYourTurn => true
  | _ => false

/-- Modelled from the spec: the Scoring Engine (`scoreboard.py`, absent from
the sources) is abstracted to the one observation the match core reads from
it, its completion predicate `is_finished()`.  Its move commits and renders
are passed to the operations as oracle arguments. -/
structure Scoreboard where
  is_finished : Bool
  deriving DecidableEq, Repr

/-- State of one match (the fields of `Game.__init__`; the unused `chat`
handle is omitted).  `saved_rerolls` models the `defaultdict(int)` bank. -/
structure Game where
  owner : Player
  players : List Player
  current : Nat
  scoreboard : Option Scoreboard
  started : Bool
  finished : Bool
  yahtzee : Bool
  forced : Bool
  maxi : Bool
  hand : Option (List Nat)
  saved_rerolls : Player → Int
  reroll : Nat
  reroll_pool : List Char
  last_op : Nat

/-- Number of dice: `5 if not self.maxi else 6`. -/
def dice_count (g : Game) : Nat := if g.maxi then 6 else 5

/-- Python truthiness of `self.hand` (`None` and `[]` are falsy). -/
def hand_truthy : Option (List Nat) → Bool
  | none => false
  | some l => !l.isEmpty

/-- The valid position characters, `'12345'` plus `'6'` under Maxi. -/
def valid_chars (g : Game) : List Char :=
  if g.maxi then ['1', '2', '3', '4', '5', '6'] else ['1', '2', '3', '4', '5']

/-- `int(d) - 1` for a position character. -/
def char_pos (c : Char) : Nat := c.toNat - 49

/-- `Game.__init__`: fails (`ValueError`) when Maxi or Forced is combined
with Yahtzee; otherwise the creator is owner and sole roster member. -/
def new_game (owner : Player) (yahtzee forced maxi : Bool) (t : Nat) :
    Except Err Game :=
  if (maxi || forced) && yahtzee then Except.error Err.configError
  else Except.ok
    { owner := owner
      players := [owner]
      current := 0
      scoreboard := none
      started := false
      finished := false
      yahtzee := yahtzee
      forced := forced
      maxi := maxi
      hand := none
      saved_rerolls := fun _ => 0
      reroll := 0
      reroll_pool := []
      last_op := t }

/-- `Game.add_player`. -/
def add_player (g : Game) (p : Player) : Game × Except Err Unit :=
  if g.started then (g, Except.error Err.cannotAddStarted)
  else if p ∈ g.players then (g, Except.error Err.alreadyJoined)
  else ({ g with players := g.players ++ [p] }, Except.ok ())

/-- The unconditional mutations of `Game.stop_game`. -/
def stop_apply (g : Game) : Game :=
  { g with started := false, finished := true, last_op := 0 }

/-- `Game.stop_game`. -/
def stop_game (g : Game) (p : Player) (completed : Bool) :
    Game × Except Err Unit :=
  if !completed && p ≠ g.owner then (g, Except.error Err.onlyOwner)
  else (stop_apply g, Except.ok ())

/-- `Game.del_player`: when the owner leaves, the game is stopped first and
the operation still raises (`ownerLeft`), so the error carries a mutation. -/
def del_player (g : Game) (p : Player) : Game × Except Err Unit :=
  if g.started then (g, Except.error Err.cannotRemoveStarted)
  else if p ∉ g.players then (g, Except.error Err.notInGame)
  else if p = g.owner then ((stop_game g p false).1, Except.error Err.ownerLeft)
  else ({ g with players := g.players.erase p }, Except.ok ())

/-- `Game.is_current_turn` (in-range indexing; out-of-range would raise). -/
def is_current_turn (g : Game) (p : Player) : Bool :=
  g.players[g.current]? == some p

/-- `Game.get_current_player`. -/
def get_current_player (g : Game) : Option Player :=
  if !g.started then none else g.players[g.current]?

/-- `Game.rotate_turn`: advance the cursor with wraparound, clear the hand,
the pool and the reroll counter, refresh the timestamp. -/
def rotate_turn (g : Game) (t : Nat) : Game :=
  { g with
    current := if g.current + 1 = g.players.length then 0 else g.current + 1
    hand := none
    reroll_pool := []
    reroll := 0
    last_op := t }

/-- `Game.chk_command_usable`: the turn gate. -/
def chk_command_usable (g : Game) (p : Player) : Except Err Unit :=
  if !g.started then Except.error Err.notStarted
  else if g.finished then Except.error Err.alreadyFinished
  else if !is_current_turn g p then Except.error Err.notYourTurn
  else Except.ok ()

/-- `Game.roll`: `dice` is the randomizer's batch `Dice.roll(diceCount)`. -/
def roll (g : Game) (p : Player) (dice : List Nat) (t : Nat) :
    Game × Except Err (List Nat) :=
  match chk_command_usable g p with
  | Except.error e => (g, Except.error e)
  | Except.ok _ =>
    if hand_truthy g.hand then (g, Except.error Err.alreadyRolled)
    else
      let h := List.insertionSort (· ≤ ·) dice
      ({ g with hand := some h, last_op := t }, Except.ok h)

/-- `Game.get_hand_score_options`: the scoring engine's reply is the oracle
argument `opts`; the operation itself only validates and passes through. -/
def get_hand_score_options (g : Game) (p : Player) (opts : List Int) :
    Except Err (List Int) :=
  match chk_command_usable g p with
  | Except.error e => Except.error e
  | Except.ok _ =>
    if !hand_truthy g.hand then Except.error Err.noHand
    else Except.ok opts

/-- The successful tail of `Game.commit_turn`: install the engine's updated
state, credit the Maxi bank with the unused rerolls, rotate the turn, and
stop the game when the engine reports completion. -/
def commit_apply (g : Game) (p : Player) (sb : Scoreboard) (t : Nat) : Game :=
  let g1 := { g with scoreboard := some sb }
  let g2 :=
    if g.maxi then
      { g1 with saved_rerolls := fun q =>
          if q = p then g1.saved_rerolls q + (2 - (g.reroll : Int))
          else g1.saved_rerolls q }
    else g1
  let g3 := rotate_turn g2 t
  if sb.is_finished then stop_apply g3 else g3

/-- `Game.commit_turn`: `scoreRes` is the scoring engine's answer to
`commit_dice_combination` — on success the achieved score and the engine's
updated state, on failure the move violation it raises. -/
def commit_turn (g : Game) (p : Player)
    (scoreRes : Except Err (Int × Scoreboard)) (t : Nat) :
    Game × Except Err Int :=
  match chk_command_usable g p with
  | Except.error e => (g, Except.error e)
  | Except.ok _ =>
    if !hand_truthy g.hand then (g, Except.error Err.noHand)
    else
      match scoreRes with
      | Except.error e => (g, Except.error e)
      | Except.ok (score, sb) => (commit_apply g p sb t, Except.ok score)

/-- `Game.is_completed`: `none` models the untyped `AttributeError` raised
when `self.scoreboard` is `None` while `self.finished` is truthy. -/
def is_completed (g : Game) : Option Bool :=
  if g.finished then
    match g.scoreboard with
    | none => none
    | some sb => some sb.is_finished
  else some false

/-- `Game.is_game_not_started`. -/
def is_game_not_started (g : Game) : Bool := !g.started && !g.finished

/-- `Game.is_game_in_progress`. -/
def is_game_in_progress (g : Game) : Bool := g.started && !g.finished

/-- `Game.reroll_check`: the reroll prechecks (gate, hand, count bound).
Note it does not range-check the individual characters. -/
def reroll_check (g : Game) (p : Player) (query : List Char) :
    Except Err Unit :=
  match chk_command_usable g p with
  | Except.error e => Except.error e
  | Except.ok _ =>
    if !hand_truthy g.hand then Except.error Err.noHand
    else if query.length > dice_count g || query.length < 1 then
      Except.error Err.selectionCount
    else Except.ok ()

/-- The successful tail of `Game.reroll_dice`: overwrite each selected slot
with a fresh die (`rand` gives the randomizer's value for each position),
re-sort, refresh the timestamp. -/
def reroll_apply (g : Game) (dd : List Char) (rand : Char → Nat) (t : Nat) :
    Game × Except Err (List Nat) :=
  let h1 := dd.foldl (fun h c => h.set (char_pos c) (rand c)) (g.hand.getD [])
  let h2 := List.insertionSort (· ≤ ·) h1
  ({ g with hand := some h2, last_op := t }, Except.ok h2)

/-- `Game.reroll_dice`: prechecks, per-character range check, dedup, then
the budget check (two free rerolls; beyond that, Maxi spends the bank). -/
def reroll_dice (g : Game) (p : Player) (dice : List Char)
    (rand : Char → Nat) (t : Nat) : Game × Except Err (List Nat) :=
  match reroll_check g p dice with
  | Except.error e => (g, Except.error e)
  | Except.ok _ =>
    if !dice.all (fun i => (valid_chars g).contains i) then
      (g, Except.error Err.selectionRange)
    else
      let dd := dice.dedup
      if 2 ≤ g.reroll then
        if g.maxi then
          if g.saved_rerolls p = 0 then (g, Except.error Err.budgetExhausted)
          else
            reroll_apply
              { g with saved_rerolls := fun q =>
                  if q = p then g.saved_rerolls q - 1 else g.saved_rerolls q }
              dd rand t
        else (g, Except.error Err.budgetExhausted)
      else reroll_apply { g with reroll := g.reroll + 1 } dd rand t

/-- `Game.reroll_pooled`: run `reroll_dice` on the accumulated pool; the
pool is cleared only when the reroll succeeded (a raise propagates). -/
def reroll_pooled (g : Game) (p : Player) (rand : Char → Nat) (t : Nat) :
    Game × Except Err (List Nat) :=
  let r := reroll_dice g p g.reroll_pool rand t
  match r.2 with
  | Except.error e => (r.1, Except.error e)
  | Except.ok h => ({ r.1 with reroll_pool := [] }, Except.ok h)

/-- `Game.reroll_pool_clear`. -/
def reroll_pool_clear (g : Game) (p : Player) : Game × Except Err Unit :=
  match chk_command_usable g p with
  | Except.error e => (g, Except.error e)
  | Except.ok _ => ({ g with reroll_pool := [] }, Except.ok ())

/-- `Game.reroll_pool_select_all`. -/
def reroll_pool_select_all (g : Game) (p : Player) : Game × Except Err Unit :=
  match chk_command_usable g p with
  | Except.error e => (g, Except.error e)
  | Except.ok _ =>
    ({ g with reroll_pool :=
        if g.maxi then ['1', '2', '3', '4', '5', '6']
        else ['1', '2', '3', '4', '5'] }, Except.ok ())

/-- `Game.reroll_pool_toggle`: the single-character check precedes the gate. -/
def reroll_pool_toggle (g : Game) (p : Player) (dice : List Char) :
    Game × Except Err Unit :=
  match dice with
  | [c] =>
    match reroll_check g p [c] with
    | Except.error e => (g, Except.error e)
    | Except.ok _ =>
      if c ∈ g.reroll_pool then
        ({ g with reroll_pool := g.reroll_pool.erase c }, Except.ok ())
      else ({ g with reroll_pool := g.reroll_pool ++ [c] }, Except.ok ())
  | _ => (g, Except.error Err.selectionSingle)

/-- `Game.reroll_pool_add`: the single-character check precedes the gate. -/
def reroll_pool_add (g : Game) (p : Player) (dice : List Char) :
    Game × Except Err Unit :=
  match dice with
  | [c] =>
    match reroll_check g p [c] with
    | Except.error e => (g, Except.error e)
    | Except.ok _ =>
      if c ∈ g.reroll_pool then (g, Except.error Err.poolDup)
      else ({ g with reroll_pool := g.reroll_pool ++ [c] }, Except.ok ())
  | _ => (g, Except.error Err.selectionSingle)

/-- `Game.reroll_pool_del`: the single-character check precedes the gate. -/
def reroll_pool_del (g : Game) (p : Player) (dice : List Char) :
    Game × Except Err Unit :=
  match dice with
  | [c] =>
    match reroll_check g p [c] with
    | Except.error e => (g, Except.error e)
    | Except.ok _ =>
      if c ∉ g.reroll_pool then (g, Except.error Err.poolAbsent)
      else ({ g with reroll_pool := g.reroll_pool.erase c }, Except.ok ())
  | _ => (g, Except.error Err.selectionSingle)

/-- `Game.hand_to_str`. -/
def hand_to_str (g : Game) (p : Player) : Except Err (Option String) :=
  match chk_command_usable g p with
  | Except.error e => Except.error e
  | Except.ok _ =>
    if !hand_truthy g.hand then Except.ok none
    else Except.ok (some (String.mk ((g.hand.getD []).map Nat.digitChar)))

/-- `Game.get_hand`. -/
def get_hand (g : Game) (p : Player) : Except Err (Option (List Nat)) :=
  match chk_command_usable g p with
  | Except.error e => Except.error e
  | Except.ok _ => Except.ok g.hand

/-- `Game.start_game`: `shuffled` is the result of `shuffle(self.players)`
and `sb` the freshly constructed scoring engine. -/
def start_game (g : Game) (p : Player) (shuffled : List Player)
    (sb : Scoreboard) (t : Nat) : Game × Except Err Unit :=
  if g.finished then (g, Except.error Err.startFinished)
  else if g.players.length < 1 then (g, Except.error Err.emptyRoster)
  else if p ≠ g.owner then (g, Except.error Err.onlyOwner)
  else
    let g1 :=
      { g with
        players := shuffled
        scoreboard := some sb
        started := true
        last_op := t }
    (g1, Except.ok ())

/-- One public mutating operation of the match, the external collaborators'
responses quantified under their interface constraints (dice faces in 1..6,
the shuffle a permutation). -/
inductive Step : Game → Game → Prop where
  | addP (g : Game) (p : Player) : Step g (add_player g p).1
  | delP (g : Game) (p : Player) : Step g (del_player g p).1
  | mkRoll (g : Game) (p : Player) (dice : List Nat) (t : Nat)
      (hlen : dice.length = dice_count g)
      (hrange : ∀ d ∈ dice, 1 ≤ d ∧ d ≤ 6) :
      Step g (roll g p dice t).1
  | mkReroll (g : Game) (p : Player) (dice : List Char)
      (rand : Char → Nat) (t : Nat)
      (hrand : ∀ c, 1 ≤ rand c ∧ rand c ≤ 6) :
      Step g (reroll_dice g p dice rand t).1
  | mkRerollPooled (g : Game) (p : Player) (rand : Char → Nat) (t : Nat)
      (hrand : ∀ c, 1 ≤ rand c ∧ rand c ≤ 6) :
      Step g (reroll_pooled g p rand t).1
  | mkCommit (g : Game) (p : Player) (scoreRes : Except Err (Int × Scoreboard))
      (t : Nat) : Step g (commit_turn g p scoreRes t).1
  | poolClear (g : Game) (p : Player) : Step g (reroll_pool_clear g p).1
  | poolSelectAll (g : Game) (p : Player) :
      Step g (reroll_pool_select_all g p).1
  | poolToggle (g : Game) (p : Player) (dice : List Char) :
      Step g (reroll_pool_toggle g p dice).1
  | poolAdd (g : Game) (p : Player) (dice : List Char) :
      Step g (reroll_pool_add g p dice).1
  | poolDel (g : Game) (p : Player) (dice : List Char) :
      Step g (reroll_pool_del g p dice).1
  | mkStart (g : Game) (p : Player) (shuffled : List Player) (sb : Scoreboard)
      (t : Nat) (hperm : shuffled.Perm g.players) :
      Step g (start_game g p shuffled sb t).1
  | mkStop (g : Game) (p : Player) (completed : Bool) :
      Step g (stop_game g p completed).1

/-- States reachable from a fresh construction through the public
interface. -/
inductive Reachable : Game → Prop where
  | init (o : Player) (y f m : Bool) (t : Nat) (g : Game) :
      new_game o y f m t = Except.ok g → Reachable g
  | step (g g' : Game) : Reachable g → Step g g' → Reachable g'

/-- The inductive invariant of reachable match states. -/
structure Inv (g : Game) : Prop where
  owner_mem : g.owner ∈ g.players
  reroll_le : g.reroll ≤ 2
  bank_nonneg : ∀ q, 0 ≤ g.saved_rerolls q
  current_lt : g.finished = false → g.current < g.players.length
  current_zero : g.started = false → g.finished = false → g.current = 0

theorem chk_ok_iff (g : Game) (p : Player) :
    chk_command_usable g p = Except.ok () ↔
      g.started = true ∧ g.finished = false ∧ is_current_turn g p = true := by
  cases hs : g.started <;> cases hf : g.finished <;>
    cases hc : is_current_turn g p <;>
      simp [chk_command_usable, hs, hf, hc]

theorem chk_err_turnViolation (g : Game) (p : Player) (e : Err) :
    chk_command_usable g p = Except.error e → isTurnViolation e = true := by
  cases hs : g.started <;> cases hf : g.finished <;>
    cases hc : is_current_turn g p <;>
      simp [chk_command_usable, hs, hf, hc, isTurnViolation] <;>
        rintro rfl <;> rfl

theorem inv_stop_apply {g : Game} (h : Inv g) : Inv (stop_apply g) := by
  refine ⟨h.owner_mem, h.reroll_le, h.bank_nonneg, ?_, ?_⟩
  · intro hf; simp [stop_apply] at hf
  · intro _ hf; simp [stop_apply] at hf

theorem inv_add_player {g : Game} (h : Inv g) (p : Player) :
    Inv (add_player g p).1 := by
  unfold add_player
  split
  · exact h
  · split
    · exact h
    · refine ⟨List.mem_append_left _ h.owner_mem, h.reroll_le,
        h.bank_nonneg, ?_, h.current_zero⟩
      intro hf
      have := h.current_lt hf
      simp only [List.length_append, List.length_cons, List.length_nil]
      omega

theorem inv_del_player {g : Game} (h : Inv g) (p : Player) :
    Inv (del_player g p).1 := by
  unfold del_player
  split
  · exact h
  · split
    · exact h
    · split
      · next hmem hown =>
        have : (stop_game g p false).1 = stop_apply g := by
          simp [stop_game, hown]
        rw [this]
        exact inv_stop_apply h
      · next hstart hmem hown =>
        have hop : g.owner ∈ g.players.erase p :=
          (List.mem_erase_of_ne (fun he => hown he.symm)).2 h.owner_mem
        refine ⟨hop, h.reroll_le, h.bank_nonneg, ?_, h.current_zero⟩
        intro hf
        have hz : g.current = 0 := by
          have hs : g.started = false := by
            cases hb : g.started
            · rfl
            · exact absurd (by simp [hb]) hstart
          exact h.current_zero hs hf
        have hpos : 0 < (g.players.erase p).length :=
          List.length_pos.2 (List.ne_nil_of_mem hop)
        show g.current < (g.players.erase p).length
        omega

theorem inv_roll {g : Game} (h : Inv g) (p : Player) (dice : List Nat)
    (t : Nat) : Inv (roll g p dice t).1 := by
  unfold roll
  split
  · exact h
  · split
    · exact h
    · exact ⟨h.owner_mem, h.reroll_le, h.bank_nonneg, h.current_lt,
        h.current_zero⟩

theorem inv_reroll_apply {g : Game} (h : Inv g) (dd : List Char)
    (rand : Char → Nat) (t : Nat) : Inv (reroll_apply g dd rand t).1 :=
  ⟨h.owner_mem, h.reroll_le, h.bank_nonneg, h.current_lt, h.current_zero⟩

theorem inv_reroll_dice {g : Game} (h : Inv g) (p : Player)
    (dice : List Char) (rand : Char → Nat) (t : Nat) :
    Inv (reroll_dice g p dice rand t).1 := by
  unfold reroll_dice
  split
  · exact h
  · split
    · exact h
    · split
      · split
        · split
          · exact h
          · next hbank =>
            have hb : ∀ q, 0 ≤
                (if q = p then g.saved_rerolls q - 1 else g.saved_rerolls q) := by
              intro q
              by_cases hq : q = p
              · have h1 := h.bank_nonneg p
                subst hq
                simp only [if_pos rfl]
                omega
              · simpa [hq] using h.bank_nonneg q
            have hI : Inv { g with saved_rerolls := fun q =>
                if q = p then g.saved_rerolls q - 1 else g.saved_rerolls q } :=
              ⟨h.owner_mem, h.reroll_le, hb, h.current_lt, h.current_zero⟩
            exact inv_reroll_apply hI dice.dedup rand t
        · exact h
      · next hlt =>
        have hI : Inv { g with reroll := g.reroll + 1 } :=
          ⟨h.owner_mem, by show g.reroll + 1 ≤ 2; omega, h.bank_nonneg,
            h.current_lt, h.current_zero⟩
        exact inv_reroll_apply hI dice.dedup rand t

theorem inv_reroll_pooled {g : Game} (h : Inv g) (p : Player)
    (rand : Char → Nat) (t : Nat) : Inv (reroll_pooled g p rand t).1 := by
  have hd := inv_reroll_dice h p g.reroll_pool rand t
  cases hr2 : (reroll_dice g p g.reroll_pool rand t).2 with
  | error e =>
    have : (reroll_pooled g p rand t).1 = (reroll_dice g p g.reroll_pool rand t).1 := by
      simp [reroll_pooled, hr2]
    rw [this]
    exact hd
  | ok hh =>
    have : (reroll_pooled g p rand t).1 =
        { (reroll_dice g p g.reroll_pool rand t).1 with reroll_pool := [] } := by
      simp [reroll_pooled, hr2]
    rw [this]
    exact ⟨hd.owner_mem, hd.reroll_le, hd.bank_nonneg, hd.current_lt,
      hd.current_zero⟩

theorem inv_rotate_turn {g : Game} (h : Inv g) (hs : g.started = true)
    (t : Nat) : Inv (rotate_turn g t) := by
  refine ⟨h.owner_mem, Nat.zero_le 2, h.bank_nonneg, ?_, ?_⟩
  · intro hf
    have hpos : 0 < g.players.length :=
      List.length_pos.2 (List.ne_nil_of_mem h.owner_mem)
    have hlt := h.current_lt hf
    simp only [rotate_turn]
    split
    · exact hpos
    · next hne => omega
  · intro hs2 _
    exact absurd hs (by simpa [rotate_turn] using hs2 ▸ (by simp [rotate_turn]))

theorem commit_apply_owner (g : Game) (p : Player) (sb : Scoreboard)
    (t : Nat) : (commit_apply g p sb t).owner = g.owner := by
  unfold commit_apply rotate_turn stop_apply
  by_cases hm : g.maxi <;> by_cases hf : sb.is_finished <;> simp [hm, hf]

theorem commit_apply_players (g : Game) (p : Player) (sb : Scoreboard)
    (t : Nat) : (commit_apply g p sb t).players = g.players := by
  unfold commit_apply rotate_turn stop_apply
  by_cases hm : g.maxi <;> by_cases hf : sb.is_finished <;> simp [hm, hf]

theorem commit_apply_current (g : Game) (p : Player) (sb : Scoreboard)
    (t : Nat) : (commit_apply g p sb t).current =
      if g.current + 1 = g.players.length then 0 else g.current + 1 := by
  unfold commit_apply rotate_turn stop_apply
  by_cases hm : g.maxi <;> by_cases hf : sb.is_finished <;> simp [hm, hf]

theorem commit_apply_hand (g : Game) (p : Player) (sb : Scoreboard)
    (t : Nat) : (commit_apply g p sb t).hand = none := by
  unfold commit_apply rotate_turn stop_apply
  by_cases hm : g.maxi <;> by_cases hf : sb.is_finished <;> simp [hm, hf]

theorem commit_apply_reroll (g : Game) (p : Player) (sb : Scoreboard)
    (t : Nat) : (commit_apply g p sb t).reroll = 0 := by
  unfold commit_apply rotate_turn stop_apply
  by_cases hm : g.maxi <;> by_cases hf : sb.is_finished <;> simp [hm, hf]

theorem commit_apply_pool (g : Game) (p : Player) (sb : Scoreboard)
    (t : Nat) : (commit_apply g p sb t).reroll_pool = [] := by
  unfold commit_apply rotate_turn stop_apply
  by_cases hm : g.maxi <;> by_cases hf : sb.is_finished <;> simp [hm, hf]

theorem commit_apply_started (g : Game) (p : Player) (sb : Scoreboard)
    (t : Nat) : (commit_apply g p sb t).started =
      (if sb.is_finished then false else g.started) := by
  unfold commit_apply rotate_turn stop_apply
  by_cases hm : g.maxi <;> by_cases hf : sb.is_finished <;> simp [hm, hf]

theorem commit_apply_finished (g : Game) (p : Player) (sb : Scoreboard)
    (t : Nat) : (commit_apply g p sb t).finished =
      (if sb.is_finished then true else g.finished) := by
  unfold commit_apply rotate_turn stop_apply
  by_cases hm : g.maxi <;> by_cases hf : sb.is_finished <;> simp [hm, hf]

theorem commit_apply_bank (g : Game) (p : Player) (sb : Scoreboard)
    (t : Nat) : (commit_apply g p sb t).saved_rerolls =
      (if g.maxi then
        (fun q => if q = p then g.saved_rerolls q + (2 - (g.reroll : Int))
          else g.saved_rerolls q)
      else g.saved_rerolls) := by
  unfold commit_apply rotate_turn stop_apply
  by_cases hm : g.maxi <;> by_cases hf : sb.is_finished <;> simp [hm, hf]

theorem inv_commit_apply {g : Game} (h : Inv g) (hs : g.started = true)
    (hf0 : g.finished = false) (p : Player) (sb : Scoreboard) (t : Nat) :
    Inv (commit_apply g p sb t) := by
  have hpos : 0 < g.players.length :=
    List.length_pos.2 (List.ne_nil_of_mem h.owner_mem)
  have hlt := h.current_lt hf0
  refine ⟨?_, ?_, ?_, ?_, ?_⟩
  · rw [commit_apply_owner, commit_apply_players]
    exact h.owner_mem
  · rw [commit_apply_reroll]
    omega
  · rw [commit_apply_bank]
    split
    · intro q
      by_cases hq : q = p
      · have h1 := h.bank_nonneg p
        have h2 : (g.reroll : Int) ≤ 2 := by exact_mod_cast h.reroll_le
        subst hq
        simp only [if_pos rfl]
        omega
      · simpa [hq] using h.bank_nonneg q
    · exact h.bank_nonneg
  · intro _
    rw [commit_apply_current, commit_apply_players]
    split
    · exact hpos
    · next hne => omega
  · intro hs2 hf2
    rw [commit_apply_started] at hs2
    rw [commit_apply_finished] at hf2
    by_cases hsf : sb.is_finished
    · rw [if_pos hsf] at hf2
      cases hf2
    · rw [if_neg hsf] at hs2
      rw [hs] at hs2
      cases hs2

theorem inv_commit_turn {g : Game} (h : Inv g) (p : Player)
    (scoreRes : Except Err (Int × Scoreboard)) (t : Nat) :
    Inv (commit_turn g p scoreRes t).1 := by
  unfold commit_turn
  split
  · exact h
  · next hc =>
    split
    · exact h
    · split
      · exact h
      · have hs : g.started = true := ((chk_ok_iff g p).1 hc).1
        have hf0 : g.finished = false := ((chk_ok_iff g p).1 hc).2.1
        exact inv_commit_apply h hs hf0 p _ t

theorem inv_pool_clear {g : Game} (h : Inv g) (p : Player) :
    Inv (reroll_pool_clear g p).1 := by
  unfold reroll_pool_clear
  split
  · exact h
  · exact ⟨h.owner_mem, h.reroll_le, h.bank_nonneg, h.current_lt,
      h.current_zero⟩

theorem inv_pool_select_all {g : Game} (h : Inv g) (p : Player) :
    Inv (reroll_pool_select_all g p).1 := by
  unfold reroll_pool_select_all
  split
  · exact h
  · exact ⟨h.owner_mem, h.reroll_le, h.bank_nonneg, h.current_lt,
      h.current_zero⟩

theorem inv_pool_toggle {g : Game} (h : Inv g) (p : Player)
    (dice : List Char) : Inv (reroll_pool_toggle g p dice).1 := by
  unfold reroll_pool_toggle
  split
  · split
    · exact h
    · split
      · exact ⟨h.owner_mem, h.reroll_le, h.bank_nonneg, h.current_lt,
          h.current_zero⟩
      · exact ⟨h.owner_mem, h.reroll_le, h.bank_nonneg, h.current_lt,
          h.current_zero⟩
  · exact h

theorem inv_pool_add {g : Game} (h : Inv g) (p : Player)
    (dice : List Char) : Inv (reroll_pool_add g p dice).1 := by
  unfold reroll_pool_add
  split
  · split
    · exact h
    · split
      · exact h
      · exact ⟨h.owner_mem, h.reroll_le, h.bank_nonneg, h.current_lt,
          h.current_zero⟩
  · exact h

theorem inv_pool_del {g : Game} (h : Inv g) (p : Player)
    (dice : List Char) : Inv (reroll_pool_del g p dice).1 := by
  unfold reroll_pool_del
  split
  · split
    · exact h
    · split
      · exact h
      · exact ⟨h.owner_mem, h.reroll_le, h.bank_nonneg, h.current_lt,
          h.current_zero⟩
  · exact h

theorem inv_start_game {g : Game} (h : Inv g) (p : Player)
    (shuffled : List Player) (sb : Scoreboard) (t : Nat)
    (hperm : shuffled.Perm g.players) :
    Inv (start_game g p shuffled sb t).1 := by
  unfold start_game
  split
  · exact h
  · split
    · exact h
    · split
      · exact h
      · next hf _ _ =>
        refine ⟨hperm.mem_iff.2 h.owner_mem, h.reroll_le, h.bank_nonneg,
          ?_, ?_⟩
        · intro _
          have hf2 : g.finished = false := by
            cases hb : g.finished
            · rfl
            · exact absurd (by simp [hb]) hf
          have := h.current_lt hf2
          simpa [hperm.length_eq] using this
        · intro hs2 _
          exact absurd hs2 (by simp)

theorem inv_stop_game {g : Game} (h : Inv g) (p : Player) (completed : Bool) :
    Inv (stop_game g p completed).1 := by
  unfold stop_game
  split
  · exact h
  · exact inv_stop_apply h

/-- Every reachable state satisfies the inductive invariant. -/
theorem reachable_inv {g : Game} (h : Reachable g) : Inv g := by
  induction h with
  | init o y f m t g hg =>
    unfold new_game at hg
    split at hg
    · exact absurd hg (by simp)
    · cases hg
      exact ⟨List.mem_singleton_self o, Nat.zero_le 2, fun q => le_refl 0,
        fun _ => Nat.zero_lt_one, fun _ _ => rfl⟩
  | step g g' hr hs ih =>
    cases hs with
    | addP p => exact inv_add_player ih p
    | delP p => exact inv_del_player ih p
    | mkRoll p dice t hlen hrange => exact inv_roll ih p dice t
    | mkReroll p dice rand t hrand => exact inv_reroll_dice ih p dice rand t
    | mkRerollPooled p rand t hrand => exact inv_reroll_pooled ih p rand t
    | mkCommit p scoreRes t => exact inv_commit_turn ih p scoreRes t
    | poolClear p => exact inv_pool_clear ih p
    | poolSelectAll p => exact inv_pool_select_all ih p
    | poolToggle p dice => exact inv_pool_toggle ih p dice
    | poolAdd p dice => exact inv_pool_add ih p dice
    | poolDel p dice => exact inv_pool_del ih p dice
    | mkStart p shuffled sb t hperm =>
      exact inv_start_game ih p shuffled sb t hperm
    | mkStop p completed => exact inv_stop_game ih p completed

/-! Concrete fixtures used by witnesses and counterexamples. -/

/-- A concrete participant. -/
def alice : Player := "alice"

/-- Another concrete participant. -/
def bob : Player := "bob"

/-- A scoring-engine snapshot that is not yet complete. -/
def sb0 : Scoreboard := ⟨false⟩

/-- The fresh standard match `new_game alice false false false 0` yields. -/
def g0 : Game :=
  { owner := alice
    players := [alice]
    current := 0
    scoreboard := none
    started := false
    finished := false
    yahtzee := false
    forced := false
    maxi := false
    hand := none
    saved_rerolls := fun _ => 0
    reroll := 0
    reroll_pool := []
    last_op := 0 }

/-- The standard solo match after `start_game`. -/
def g1 : Game := (start_game g0 alice [alice] sb0 1).1

/-- The standard solo match after `start_game` and `roll`. -/
def g2 : Game := (roll g1 alice [1, 2, 3, 4, 5] 2).1

/-- The fresh Maxi match `new_game alice false false true 0` yields. -/
def m0 : Game :=
  { owner := alice
    players := [alice]
    current := 0
    scoreboard := none
    started := false
    finished := false
    yahtzee := false
    forced := false
    maxi := true
    hand := none
    saved_rerolls := fun _ => 0
    reroll := 0
    reroll_pool := []
    last_op := 0 }

/-- The Maxi solo match after `start_game`. -/
def m1 : Game := (start_game m0 alice [alice] sb0 1).1

/-- The Maxi solo match after `start_game` and `roll`. -/
def m2 : Game := (roll m1 alice [1, 1, 2, 2, 3, 3] 2).1

theorem reach_g0 : Reachable g0 :=
  Reachable.init alice false false false 0 g0 rfl

theorem reach_g1 : Reachable g1 :=
  Reachable.step g0 g1 reach_g0
    (Step.mkStart g0 alice [alice] sb0 1 (List.Perm.refl _))

theorem reach_g2 : Reachable g2 :=
  Reachable.step g1 g2 reach_g1
    (Step.mkRoll g1 alice [1, 2, 3, 4, 5] 2 (by decide) (by decide))

theorem reach_m0 : Reachable m0 :=
  Reachable.init alice false false true 0 m0 rfl

theorem reach_m1 : Reachable m1 :=
  Reachable.step m0 m1 reach_m0
    (Step.mkStart m0 alice [alice] sb0 1 (List.Perm.refl _))

theorem reach_m2 : Reachable m2 :=
  Reachable.step m1 m2 reach_m1
    (Step.mkRoll m1 alice [1, 1, 2, 2, 3, 3] 2 (by decide) (by decide))

/-! Rotation arithmetic. -/

theorem wrap_eq_mod (c n : Nat) (h : c < n) :
    (if c + 1 = n then 0 else c + 1) = (c + 1) % n := by
  split
  · next he => rw [he, Nat.mod_self]
  · next hne =>
    have : c + 1 < n := by omega
    rw [Nat.mod_eq_of_lt this]

theorem rotate_turn_players (g : Game) (t : Nat) :
    (rotate_turn g t).players = g.players := rfl

theorem rotate_turn_current (g : Game) (t : Nat)
    (h : g.current < g.players.length) :
    (rotate_turn g t).current = (g.current + 1) % g.players.length :=
  wrap_eq_mod g.current g.players.length h

theorem rotate_fold (ts : List Nat) :
    ∀ g : Game, g.current < g.players.length →
      (ts.foldl rotate_turn g).players = g.players ∧
      (ts.foldl rotate_turn g).current =
        (g.current + ts.length) % g.players.length := by
  induction ts with
  | nil =>
    intro g h
    simpa using (Nat.mod_eq_of_lt h).symm
  | cons a ts ih =>
    intro g h
    have hn : 0 < g.players.length := by omega
    have h1 : (rotate_turn g a).current < (rotate_turn g a).players.length := by
      rw [rotate_turn_players, rotate_turn_current g a h]
      exact Nat.mod_lt _ hn
    have h2 := ih (rotate_turn g a) h1
    refine ⟨by rw [List.foldl_cons, h2.1, rotate_turn_players], ?_⟩
    rw [List.foldl_cons, h2.2, rotate_turn_players, rotate_turn_current g a h,
      Nat.mod_add_mod, List.length_cons]
    have : g.current + 1 + ts.length = g.current + (ts.length + 1) := by omega
    rw [this]

/-! Anatomy of a successful commit. -/

theorem commit_ok_anatomy (g : Game) (p : Player)
    (sr : Except Err (Int × Scoreboard)) (t : Nat) (s : Int)
    (hok : (commit_turn g p sr t).2 = Except.ok s) :
    chk_command_usable g p = Except.ok () ∧ hand_truthy g.hand = true ∧
      ∃ sb, sr = Except.ok (s, sb) ∧
        (commit_turn g p sr t).1 = commit_apply g p sb t := by
  cases hc : chk_command_usable g p with
  | error e => simp [commit_turn, hc] at hok
  | ok u =>
    cases u
    by_cases ht : hand_truthy g.hand
    · cases hsr : sr with
      | error e => simp [commit_turn, hc, ht, hsr] at hok
      | ok v =>
        obtain ⟨s2, sb⟩ := v
        have hs2 : s2 = s := by
          simpa [commit_turn, hc, ht, hsr] using hok
        subst hs2
        exact ⟨rfl, by simpa using ht, sb, rfl,
          by simp [commit_turn, hc, ht, hsr]⟩
    · simp [commit_turn, hc, ht] at hok

/-! Error paths leave the state unchanged (with the one exception of the
owner-leave path of `del_player`). -/

theorem add_player_error_unchanged (g : Game) (p : Player) (e : Err)
    (h : (add_player g p).2 = Except.error e) : (add_player g p).1 = g := by
  unfold add_player at h ⊢
  split at h <;> try split at h <;> try split at h <;> try split at h <;> try split at h <;> try split at h
  all_goals simp_all [reroll_apply]

theorem del_player_error_unchanged (g : Game) (p : Player) (e : Err)
    (h : (del_player g p).2 = Except.error e) (hne : e ≠ Err.ownerLeft) :
    (del_player g p).1 = g := by
  unfold del_player at h ⊢
  split at h <;> try split at h <;> try split at h <;> try split at h <;> try split at h <;> try split at h
  all_goals simp_all [reroll_apply]

theorem roll_error_unchanged (g : Game) (p : Player) (dice : List Nat)
    (t : Nat) (e : Err) (h : (roll g p dice t).2 = Except.error e) :
    (roll g p dice t).1 = g := by
  unfold roll at h ⊢
  split at h <;> try split at h <;> try split at h <;> try split at h <;> try split at h <;> try split at h
  all_goals simp_all [reroll_apply]

theorem reroll_dice_error_unchanged (g : Game) (p : Player)
    (dice : List Char) (rand : Char → Nat) (t : Nat) (e : Err)
    (h : (reroll_dice g p dice rand t).2 = Except.error e) :
    (reroll_dice g p dice rand t).1 = g := by
  unfold reroll_dice at h ⊢
  split at h <;> try split at h <;> try split at h <;> try split at h <;> try split at h <;> try split at h
  all_goals try simp_all [reroll_apply]
  all_goals rw [if_neg (by push_neg; assumption)]

theorem reroll_pooled_error_unchanged (g : Game) (p : Player)
    (rand : Char → Nat) (t : Nat) (e : Err)
    (h : (reroll_pooled g p rand t).2 = Except.error e) :
    (reroll_pooled g p rand t).1 = g := by
  cases hr : (reroll_dice g p g.reroll_pool rand t).2 with
  | error e2 =>
    have h1 : (reroll_pooled g p rand t).1 =
        (reroll_dice g p g.reroll_pool rand t).1 := by
      simp [reroll_pooled, hr]
    rw [h1]
    exact reroll_dice_error_unchanged g p g.reroll_pool rand t e2 hr
  | ok hh => simp [reroll_pooled, hr] at h

theorem commit_turn_error_unchanged (g : Game) (p : Player)
    (sr : Except Err (Int × Scoreboard)) (t : Nat) (e : Err)
    (h : (commit_turn g p sr t).2 = Except.error e) :
    (commit_turn g p sr t).1 = g := by
  unfold commit_turn at h ⊢
  split at h <;> try split at h <;> try split at h <;> try split at h <;> try split at h <;> try split at h
  all_goals simp_all [reroll_apply]

theorem pool_clear_error_unchanged (g : Game) (p : Player) (e : Err)
    (h : (reroll_pool_clear g p).2 = Except.error e) :
    (reroll_pool_clear g p).1 = g := by
  unfold reroll_pool_clear at h ⊢
  split at h <;> simp_all

theorem pool_select_all_error_unchanged (g : Game) (p : Player) (e : Err)
    (h : (reroll_pool_select_all g p).2 = Except.error e) :
    (reroll_pool_select_all g p).1 = g := by
  unfold reroll_pool_select_all at h ⊢
  split at h <;> simp_all

theorem pool_toggle_error_unchanged (g : Game) (p : Player)
    (dice : List Char) (e : Err)
    (h : (reroll_pool_toggle g p dice).2 = Except.error e) :
    (reroll_pool_toggle g p dice).1 = g := by
  unfold reroll_pool_toggle at h ⊢
  split at h <;> try split at h <;> try split at h
  all_goals simp_all

theorem pool_add_error_unchanged (g : Game) (p : Player)
    (dice : List Char) (e : Err)
    (h : (reroll_pool_add g p dice).2 = Except.error e) :
    (reroll_pool_add g p dice).1 = g := by
  unfold reroll_pool_add at h ⊢
  split at h <;> try split at h <;> try split at h
  all_goals simp_all

theorem pool_del_error_unchanged (g : Game) (p : Player)
    (dice : List Char) (e : Err)
    (h : (reroll_pool_del g p dice).2 = Except.error e) :
    (reroll_pool_del g p dice).1 = g := by
  unfold reroll_pool_del at h ⊢
  split at h <;> try split at h <;> try split at h
  all_goals simp_all

theorem start_game_error_unchanged (g : Game) (p : Player)
    (shuffled : List Player) (sb : Scoreboard) (t : Nat) (e : Err)
    (h : (start_game g p shuffled sb t).2 = Except.error e) :
    (start_game g p shuffled sb t).1 = g := by
  unfold start_game at h ⊢
  split at h <;> try split at h <;> try split at h <;> try split at h <;> try split at h <;> try split at h
  all_goals simp_all [reroll_apply]

theorem stop_game_error_unchanged (g : Game) (p : Player) (completed : Bool)
    (e : Err) (h : (stop_game g p completed).2 = Except.error e) :
    (stop_game g p completed).1 = g := by
  unfold stop_game at h ⊢
  split at h <;> simp_all

/-! The claims. -/

/-- C9: `is_completed` is not total at the public interface: for a match
force-stopped before ever starting (the owner left during NOT_STARTED via
`del_player`), `finished` is true while no scoring engine was ever built,
and `is_completed` dereferences the absent engine — modelled as the `none`
outcome — instead of returning `false`. -/
theorem claim9_thm (o : Player) (y f m : Bool) (t : Nat) (g : Game)
    (hg : new_game o y f m t = Except.ok g) :
    is_completed g = some false ∧
    (del_player g o).2 = Except.error Err.ownerLeft ∧
    (del_player g o).1.finished = true ∧
    (del_player g o).1.scoreboard = none ∧
    is_completed (del_player g o).1 = none := by
  unfold new_game at hg
  split at hg
  · exact absurd hg (by simp)
  · cases hg
    refine ⟨rfl, ?_, ?_, ?_, ?_⟩ <;>
      simp [del_player, stop_game, stop_apply, is_completed]

theorem claim9_witness :
    is_completed (del_player g0 alice).1 = none ∧
    (del_player g0 alice).2 = Except.error Err.ownerLeft :=
  ⟨(claim9_thm alice false false false 0 g0 rfl).2.2.2.2,
   (claim9_thm alice false false false 0 g0 rfl).2.1⟩

/-- C3 counterexample: `start_game` on a match that is already IN_PROGRESS
(started and not finished) does not fail — the owner's call succeeds, so
there is no double-start error and the state is changed. -/
theorem claim3_cex :
    is_game_in_progress g1 = true ∧
    (start_game g1 alice [alice] sb0 2).2 = Except.ok () ∧
    (start_game g1 alice [alice] sb0 2).1.started = true := by
  exact ⟨rfl, rfl, rfl⟩

/-- C3 (amended): `start_game` fails only when the match is FINISHED, the
roster is empty, or the initiator is not the owner; it does not check
whether the match is already started, so an owner's start on an
IN_PROGRESS match succeeds (installing a fresh roster order and scoring
engine).  Any failing start leaves the state unchanged. -/
theorem claim3_thm (g : Game) (p : Player) (shuffled : List Player)
    (sb : Scoreboard) (t : Nat) :
    ((start_game g p shuffled sb t).2 = Except.ok () ↔
      g.finished = false ∧ 1 ≤ g.players.length ∧ p = g.owner) ∧
    ((start_game g p shuffled sb t).2 = Except.ok () →
      (start_game g p shuffled sb t).1.started = true ∧
      (start_game g p shuffled sb t).1.players = shuffled ∧
      (start_game g p shuffled sb t).1.scoreboard = some sb) ∧
    (∀ e, (start_game g p shuffled sb t).2 = Except.error e →
      (start_game g p shuffled sb t).1 = g) := by
  refine ⟨?_, ?_, fun e h => start_game_error_unchanged g p shuffled sb t e h⟩
  · unfold start_game
    by_cases h1 : g.finished <;> by_cases h2 : g.players.length < 1 <;>
      by_cases h3 : p = g.owner <;> simp [h1, h2, h3] <;> omega
  · intro h
    by_cases h1 : g.finished
    · exact absurd h (by simp [start_game, h1])
    · by_cases h2 : g.players.length < 1
      · exact absurd h (by simp [start_game, h1, h2])
      · by_cases h3 : p = g.owner
        · refine ⟨?_, ?_, ?_⟩ <;> simp [start_game, h1, h2, h3]
        · exact absurd h (by simp [start_game, h1, h2, h3])

theorem claim3_witness :
    (start_game g1 alice [alice] sb0 2).1.started = true ∧
    (start_game g1 alice [alice] sb0 2).1.scoreboard = some sb0 :=
  ⟨((claim3_thm g1 alice [alice] sb0 2).2.1 (by rfl)).1,
   ((claim3_thm g1 alice [alice] sb0 2).2.1 (by rfl)).2.2⟩

/-- C2 counterexample: `del_player` by the owner both mutates the state
(the match becomes finished, via the embedded `stop_game`) and returns a
typed error, so "no operation both mutates state and returns an error"
fails on the code. -/
theorem claim2_cex :
    (del_player g0 alice).2 = Except.error Err.ownerLeft ∧
    (del_player g0 alice).1.finished = true ∧ g0.finished = false :=
  ⟨rfl, rfl, rfl⟩

/-- C2 (amended): every operation either fully succeeds or fully fails
with the state unchanged — except the owner-leave path of `del_player`,
which force-stops the match and still raises the owner-abandonment
error.  Formally: any error outcome other than `ownerLeft` leaves the
state exactly as it was. -/
theorem claim2_thm (g : Game) :
    (∀ p e, (add_player g p).2 = Except.error e → (add_player g p).1 = g) ∧
    (∀ p e, (del_player g p).2 = Except.error e → e ≠ Err.ownerLeft →
      (del_player g p).1 = g) ∧
    (∀ p dice t e, (roll g p dice t).2 = Except.error e →
      (roll g p dice t).1 = g) ∧
    (∀ p dice rand t e, (reroll_dice g p dice rand t).2 = Except.error e →
      (reroll_dice g p dice rand t).1 = g) ∧
    (∀ p rand t e, (reroll_pooled g p rand t).2 = Except.error e →
      (reroll_pooled g p rand t).1 = g) ∧
    (∀ p sr t e, (commit_turn g p sr t).2 = Except.error e →
      (commit_turn g p sr t).1 = g) ∧
    (∀ p e, (reroll_pool_clear g p).2 = Except.error e →
      (reroll_pool_clear g p).1 = g) ∧
    (∀ p e, (reroll_pool_select_all g p).2 = Except.error e →
      (reroll_pool_select_all g p).1 = g) ∧
    (∀ p dice e, (reroll_pool_toggle g p dice).2 = Except.error e →
      (reroll_pool_toggle g p dice).1 = g) ∧
    (∀ p dice e, (reroll_pool_add g p dice).2 = Except.error e →
      (reroll_pool_add g p dice).1 = g) ∧
    (∀ p dice e, (reroll_pool_del g p dice).2 = Except.error e →
      (reroll_pool_del g p dice).1 = g) ∧
    (∀ p shuffled sb t e, (start_game g p shuffled sb t).2 = Except.error e →
      (start_game g p shuffled sb t).1 = g) ∧
    (∀ p completed e, (stop_game g p completed).2 = Except.error e →
      (stop_game g p completed).1 = g) :=
  ⟨fun p e h => add_player_error_unchanged g p e h,
   fun p e h hne => del_player_error_unchanged g p e h hne,
   fun p dice t e h => roll_error_unchanged g p dice t e h,
   fun p dice rand t e h => reroll_dice_error_unchanged g p dice rand t e h,
   fun p rand t e h => reroll_pooled_error_unchanged g p rand t e h,
   fun p sr t e h => commit_turn_error_unchanged g p sr t e h,
   fun p e h => pool_clear_error_unchanged g p e h,
   fun p e h => pool_select_all_error_unchanged g p e h,
   fun p dice e h => pool_toggle_error_unchanged g p dice e h,
   fun p dice e h => pool_add_error_unchanged g p dice e h,
   fun p dice e h => pool_del_error_unchanged g p dice e h,
   fun p shuffled sb t e h => start_game_error_unchanged g p shuffled sb t e h,
   fun p completed e h => stop_game_error_unchanged g p completed e h⟩

theorem claim2_witness :
    (roll g0 alice [1, 2, 3, 4, 5] 7).1 = g0 ∧ (add_player g1 bob).1 = g1 :=
  ⟨(claim2_thm g0).2.2.1 alice [1, 2, 3, 4, 5] 7 Err.notStarted (by rfl),
   (claim2_thm g1).1 bob Err.cannotAddStarted (by rfl)⟩

/-- C8 counterexample: in a NOT_STARTED match, `reroll_pool_add` with a
two-character input fails with the single-selection violation, not with a
turn-violation error — the single-character check precedes the gate. -/
theorem claim8_cex :
    g0.started = false ∧
    (reroll_pool_add g0 alice ['1', '2']).2 =
      Except.error Err.selectionSingle ∧
    isTurnViolation Err.selectionSingle = false :=
  ⟨rfl, rfl, rfl⟩

/-- C8 (amended): whenever the match is not started, or is finished, or the
acting participant is not the roster member at the turn cursor, every
turn-scoped operation fails with a turn-violation error — except the
single-position pool operations (`add`, `del`, `toggle`), which are covered
only for single-character inputs, because their input-arity check runs
before the gate.  When the guard condition holds, `chk_command_usable`
succeeds (`chk_ok_iff`). -/
theorem claim8_thm (g : Game) (p : Player)
    (hguard : g.started = false ∨ g.finished = true ∨
      is_current_turn g p = false) :
    ∃ e, isTurnViolation e = true ∧
      chk_command_usable g p = Except.error e ∧
      (∀ dice t, (roll g p dice t).2 = Except.error e) ∧
      (∀ dice rand t, (reroll_dice g p dice rand t).2 = Except.error e) ∧
      (∀ rand t, (reroll_pooled g p rand t).2 = Except.error e) ∧
      (∀ sr t, (commit_turn g p sr t).2 = Except.error e) ∧
      ((reroll_pool_clear g p).2 = Except.error e) ∧
      ((reroll_pool_select_all g p).2 = Except.error e) ∧
      (∀ c, (reroll_pool_toggle g p [c]).2 = Except.error e) ∧
      (∀ c, (reroll_pool_add g p [c]).2 = Except.error e) ∧
      (∀ c, (reroll_pool_del g p [c]).2 = Except.error e) ∧
      (hand_to_str g p = Except.error e) ∧
      (get_hand g p = Except.error e) ∧
      (∀ opts, get_hand_score_options g p opts = Except.error e) := by
  cases hc : chk_command_usable g p with
  | ok u =>
    cases u
    have h2 := (chk_ok_iff g p).1 hc
    rcases hguard with h | h | h <;> simp [h] at h2
  | error e =>
    have hrc : ∀ q, reroll_check g p q = Except.error e := fun q => by
      simp [reroll_check, hc]
    refine ⟨e, chk_err_turnViolation g p e hc, rfl, ?_, ?_, ?_, ?_, ?_, ?_,
      ?_, ?_, ?_, ?_, ?_, ?_⟩
    · intro dice t
      simp [roll, hc]
    · intro dice rand t
      simp [reroll_dice, hrc]
    · intro rand t
      simp [reroll_pooled, reroll_dice, hrc]
    · intro sr t
      simp [commit_turn, hc]
    · simp [reroll_pool_clear, hc]
    · simp [reroll_pool_select_all, hc]
    · intro c
      simp [reroll_pool_toggle, hrc]
    · intro c
      simp [reroll_pool_add, hrc]
    · intro c
      simp [reroll_pool_del, hrc]
    · simp [hand_to_str, hc]
    · simp [get_hand, hc]
    · intro opts
      simp [get_hand_score_options, hc]

theorem claim8_witness :
    ∃ e, isTurnViolation e = true ∧
      (roll g0 alice [1, 2, 3, 4, 5] 3).2 = Except.error e ∧
      (commit_turn g0 alice (Except.ok (0, sb0)) 3).2 = Except.error e := by
  obtain ⟨e, h1, h2, h3, h4, h5, h6, h7⟩ := claim8_thm g0 alice (Or.inl rfl)
  exact ⟨e, h1, h3 [1, 2, 3, 4, 5] 3, h6 (Except.ok (0, sb0)) 3⟩

/-- C1 counterexample: in an IN_PROGRESS match with a hand, `poolAdd`
accepts the out-of-range position character `'9'` — the precheck bounds
only the input's length, not its characters — so the reroll pool does end
up containing an out-of-range position marker. -/
theorem claim1_cex :
    is_game_in_progress g2 = true ∧ hand_truthy g2.hand = true ∧
    (reroll_pool_add g2 alice ['9']).2 = Except.ok () ∧
    (reroll_pool_add g2 alice ['9']).1.reroll_pool = ['9'] ∧
    '9' ∉ valid_chars g2 :=
  ⟨rfl, rfl, rfl, rfl, by decide⟩

/-- The pool state reached by staging the out-of-range marker `'9'`. -/
def g3 : Game := (reroll_pool_add g2 alice ['9']).1

/-- C1 (amended): `clear` and `selectAll` always produce in-range pools,
but `add` (and `toggle`/`del`) validate only the single-character arity
plus the gate/hand/count prechecks, so any single character — in range or
not — can enter the pool; an out-of-range marker is rejected only when the
pooled reroll executes, which then fails with a selection violation and
leaves the state unchanged. -/
theorem claim1_thm (g : Game) (p : Player) (c : Char) :
    ((reroll_pool_clear g p).2 = Except.ok () →
      (reroll_pool_clear g p).1.reroll_pool = []) ∧
    ((reroll_pool_select_all g p).2 = Except.ok () →
      (reroll_pool_select_all g p).1.reroll_pool = valid_chars g) ∧
    ((reroll_pool_add g p [c]).2 = Except.ok () →
      (reroll_pool_add g p [c]).1.reroll_pool = g.reroll_pool ++ [c]) ∧
    (c ∈ g.reroll_pool → c ∉ valid_chars g →
      reroll_check g p g.reroll_pool = Except.ok () →
      ∀ rand t,
        (reroll_pooled g p rand t).2 = Except.error Err.selectionRange ∧
        (reroll_pooled g p rand t).1 = g) := by
  refine ⟨?_, ?_, ?_, ?_⟩
  · intro h
    cases hc : chk_command_usable g p with
    | error e => simp [reroll_pool_clear, hc] at h
    | ok u => cases u; simp [reroll_pool_clear, hc]
  · intro h
    cases hc : chk_command_usable g p with
    | error e => simp [reroll_pool_select_all, hc] at h
    | ok u =>
      cases u
      simp only [reroll_pool_select_all, hc, valid_chars]
  · intro h
    cases hrc : reroll_check g p [c] with
    | error e => simp [reroll_pool_add, hrc] at h
    | ok u =>
      cases u
      by_cases hmem : c ∈ g.reroll_pool
      · simp [reroll_pool_add, hrc, hmem] at h
      · simp [reroll_pool_add, hrc, hmem]
  · intro hmem hnot hrc rand t
    have hex : ∃ x ∈ g.reroll_pool, x ∉ valid_chars g := ⟨c, hmem, hnot⟩
    constructor <;> simp [reroll_pooled, reroll_dice, hrc, hex]

theorem claim1_witness :
    (reroll_pooled g3 alice (fun _ => 3) 4).2 =
      Except.error Err.selectionRange ∧
    (reroll_pooled g3 alice (fun _ => 3) 4).1 = g3 :=
  (claim1_thm g3 alice '9').2.2.2 (by decide) (by decide) (by rfl)
    (fun _ => 3) 4

/-- C5: after any successful `roll` the hand has exactly `dice_count`
elements (6 when Maxi, 5 otherwise), each face in 1..6, sorted ascending,
and it is stored as the current hand; when the gate passes but a hand is
already set, `roll` fails with the already-rolled sequencing violation and
changes nothing. -/
theorem claim5_thm (g : Game) (p : Player) (dice : List Nat) (t : Nat)
    (hlen : dice.length = dice_count g)
    (hrange : ∀ d ∈ dice, 1 ≤ d ∧ d ≤ 6) :
    (dice_count g = if g.maxi then 6 else 5) ∧
    (∀ h, (roll g p dice t).2 = Except.ok h →
      h.length = dice_count g ∧ List.Sorted (· ≤ ·) h ∧
      (∀ d ∈ h, 1 ≤ d ∧ d ≤ 6) ∧ (roll g p dice t).1.hand = some h) ∧
    (chk_command_usable g p = Except.ok () → hand_truthy g.hand = true →
      (roll g p dice t).2 = Except.error Err.alreadyRolled ∧
      (roll g p dice t).1 = g) := by
  refine ⟨rfl, ?_, ?_⟩
  · intro h hok
    cases hc : chk_command_usable g p with
    | error e => simp [roll, hc] at hok
    | ok u =>
      cases u
      by_cases ht : hand_truthy g.hand
      · simp [roll, hc, ht] at hok
      · have hsort := List.sorted_insertionSort (· ≤ ·) dice
        have hperm := List.perm_insertionSort (· ≤ ·) dice
        have hh : List.insertionSort (· ≤ ·) dice = h := by
          simpa [roll, hc, ht] using hok
        refine ⟨?_, hh ▸ hsort, ?_, ?_⟩
        · rw [← hh, hperm.length_eq, hlen]
        · intro d hd
          exact hrange d (hperm.mem_iff.1 (hh ▸ hd))
        · simp [roll, hc, ht, hh]
  · intro hc ht
    constructor <;> simp [roll, hc, ht]

theorem claim5_witness :
    dice_count g1 = 5 ∧
    ([1, 2, 3, 4, 5] : List Nat).length = dice_count g1 ∧
    List.Sorted (· ≤ ·) ([1, 2, 3, 4, 5] : List Nat) := by
  have h := (claim5_thm g1 alice [5, 4, 3, 2, 1] 2 (by decide)
    (by decide)).2.1 [1, 2, 3, 4, 5] (by rfl)
  exact ⟨rfl, h.1, h.2.1⟩

/-- C4: in every reachable state `reroll ≤ 2` and every bank entry is
non-negative; a reroll with budget left increments the counter by one and
leaves the bank alone; a reroll at the limit succeeds only under Maxi with
a positive bank for the acting participant, decrementing that bank entry
instead of the counter; otherwise (prechecks passing) it fails with the
budget-exhausted error. -/
theorem claim4_thm (g : Game) (hr : Reachable g) :
    g.reroll ≤ 2 ∧ (∀ q, 0 ≤ g.saved_rerolls q) ∧
    (∀ p dice rand t h, g.reroll < 2 →
      (reroll_dice g p dice rand t).2 = Except.ok h →
      (reroll_dice g p dice rand t).1.reroll = g.reroll + 1 ∧
      (reroll_dice g p dice rand t).1.saved_rerolls = g.saved_rerolls) ∧
    (∀ p dice rand t h, 2 ≤ g.reroll →
      (reroll_dice g p dice rand t).2 = Except.ok h →
      g.maxi = true ∧ 0 < g.saved_rerolls p ∧
      (reroll_dice g p dice rand t).1.saved_rerolls p =
        g.saved_rerolls p - 1 ∧
      (reroll_dice g p dice rand t).1.reroll = g.reroll) ∧
    (∀ p dice rand t, 2 ≤ g.reroll →
      ¬(g.maxi = true ∧ g.saved_rerolls p ≠ 0) →
      reroll_check g p dice = Except.ok () →
      (∀ i ∈ dice, i ∈ valid_chars g) →
      (reroll_dice g p dice rand t).2 = Except.error Err.budgetExhausted) := by
  have hinv := reachable_inv hr
  refine ⟨hinv.reroll_le, hinv.bank_nonneg, ?_, ?_, ?_⟩
  · intro p dice rand t h hlt hok
    cases hrc : reroll_check g p dice with
    | error e => simp [reroll_dice, hrc] at hok
    | ok u =>
      cases u
      by_cases hb : (dice.all fun i => (valid_chars g).contains i) = true
      · have hall : ∀ x ∈ dice, x ∈ valid_chars g := by
          intro x hx
          simpa using List.all_eq_true.mp hb x hx
        have hnex : ¬ ∃ x ∈ dice, x ∉ valid_chars g :=
          fun ⟨x, hx, hn⟩ => hn (hall x hx)
        have hge : ¬ (2 ≤ g.reroll) := by omega
        constructor <;> simp [reroll_dice, hrc, hnex, hge, reroll_apply]
      · have hb2 : (dice.all fun i => (valid_chars g).contains i) = false := by
          revert hb
          cases dice.all fun i => (valid_chars g).contains i <;> simp
        have hex : ∃ x ∈ dice, x ∉ valid_chars g := by
          obtain ⟨x, hx, hpx⟩ := List.all_eq_false.mp hb2
          exact ⟨x, hx, by simpa using hpx⟩
        simp [reroll_dice, hrc, hex] at hok
  · intro p dice rand t h hge hok
    cases hrc : reroll_check g p dice with
    | error e => simp [reroll_dice, hrc] at hok
    | ok u =>
      cases u
      by_cases hb : (dice.all fun i => (valid_chars g).contains i) = true
      · have hall : ∀ x ∈ dice, x ∈ valid_chars g := by
          intro x hx
          simpa using List.all_eq_true.mp hb x hx
        have hnex : ¬ ∃ x ∈ dice, x ∉ valid_chars g :=
          fun ⟨x, hx, hn⟩ => hn (hall x hx)
        by_cases hm : g.maxi
        · by_cases hz : g.saved_rerolls p = 0
          · simp [reroll_dice, hrc, hnex, hge, hm, hz] at hok
          · have hpos : 0 < g.saved_rerolls p :=
              lt_of_le_of_ne (hinv.bank_nonneg p) (Ne.symm hz)
            refine ⟨hm, hpos, ?_, ?_⟩ <;>
              simp [reroll_dice, hrc, hnex, hge, hm, hz, reroll_apply]
        · simp [reroll_dice, hrc, hnex, hge, hm] at hok
      · have hb2 : (dice.all fun i => (valid_chars g).contains i) = false := by
          revert hb
          cases dice.all fun i => (valid_chars g).contains i <;> simp
        have hex : ∃ x ∈ dice, x ∉ valid_chars g := by
          obtain ⟨x, hx, hpx⟩ := List.all_eq_false.mp hb2
          exact ⟨x, hx, by simpa using hpx⟩
        simp [reroll_dice, hrc, hex] at hok
  · intro p dice rand t hge hnb hrc hvalid
    have hnex : ¬ ∃ x ∈ dice, x ∉ valid_chars g :=
      fun ⟨x, hx, hn⟩ => hn (hvalid x hx)
    by_cases hm : g.maxi
    · have hz : g.saved_rerolls p = 0 := by
        by_contra hnz
        exact hnb ⟨hm, hnz⟩
      simp [reroll_dice, hrc, hnex, hge, hm, hz]
    · simp [reroll_dice, hrc, hnex, hge, hm]

theorem claim4_witness :
    m2.reroll ≤ 2 ∧ (0 : Int) ≤ m2.saved_rerolls alice ∧
    (reroll_dice m2 alice ['1'] (fun _ => 4) 3).1.reroll = m2.reroll + 1 := by
  have h := claim4_thm m2 reach_m2
  refine ⟨h.1, h.2.1 alice, ?_⟩
  exact (h.2.2.1 alice ['1'] (fun _ => 4) 3 [1, 2, 2, 3, 3, 4] (by decide)
    (by rfl)).1

/-- C6: after every successful commit (in a reachable state) the turn
cursor advances by one modulo the roster size, the hand is cleared, the
reroll counter resets to 0, the pool is emptied, and the roster is
untouched; iterating the turn rotation roster-size many times returns the
cursor to its original value. -/
theorem claim6_thm (g : Game) (hr : Reachable g) (p : Player)
    (sr : Except Err (Int × Scoreboard)) (t : Nat) (s : Int)
    (hok : (commit_turn g p sr t).2 = Except.ok s) :
    (commit_turn g p sr t).1.current = (g.current + 1) % g.players.length ∧
    (commit_turn g p sr t).1.players = g.players ∧
    (commit_turn g p sr t).1.hand = none ∧
    (commit_turn g p sr t).1.reroll = 0 ∧
    (commit_turn g p sr t).1.reroll_pool = [] ∧
    (∀ ts : List Nat, ts.length = g.players.length →
      (ts.foldl rotate_turn g).current = g.current) := by
  have hinv := reachable_inv hr
  obtain ⟨hc, ht, sb, hsr, heq⟩ := commit_ok_anatomy g p sr t s hok
  have hf : g.finished = false := ((chk_ok_iff g p).1 hc).2.1
  have hlt := hinv.current_lt hf
  rw [heq]
  refine ⟨?_, commit_apply_players g p sb t, commit_apply_hand g p sb t,
    commit_apply_reroll g p sb t, commit_apply_pool g p sb t, ?_⟩
  · rw [commit_apply_current]
    exact wrap_eq_mod g.current g.players.length hlt
  · intro ts hts
    rw [(rotate_fold ts g hlt).2, hts, Nat.add_mod_right,
      Nat.mod_eq_of_lt hlt]

theorem claim6_witness :
    (commit_turn g2 alice (Except.ok (10, sb0)) 5).1.current =
      (g2.current + 1) % g2.players.length ∧
    (commit_turn g2 alice (Except.ok (10, sb0)) 5).1.hand = none := by
  have h := claim6_thm g2 reach_g2 alice (Except.ok (10, sb0)) 5 10 (by rfl)
  exact ⟨h.1, h.2.2.1⟩

/-- C7: on every successful commit in the Maxi variant the acting
participant's bank is credited with exactly `2 - rerollsUsedThisTurn`,
which is non-negative in reachable states; in non-Maxi variants commit
leaves the whole bank mapping unchanged. -/
theorem claim7_thm (g : Game) (hr : Reachable g) (p : Player)
    (sr : Except Err (Int × Scoreboard)) (t : Nat) (s : Int)
    (hok : (commit_turn g p sr t).2 = Except.ok s) :
    (g.maxi = true →
      (commit_turn g p sr t).1.saved_rerolls p =
        g.saved_rerolls p + (2 - (g.reroll : Int)) ∧
      0 ≤ 2 - (g.reroll : Int)) ∧
    (g.maxi = false →
      (commit_turn g p sr t).1.saved_rerolls = g.saved_rerolls) := by
  have hinv := reachable_inv hr
  obtain ⟨hc, ht, sb, hsr, heq⟩ := commit_ok_anatomy g p sr t s hok
  rw [heq]
  constructor
  · intro hm
    rw [commit_apply_bank]
    refine ⟨by simp [hm], ?_⟩
    have h2 : (g.reroll : Int) ≤ 2 := by exact_mod_cast hinv.reroll_le
    omega
  · intro hm
    rw [commit_apply_bank]
    simp [hm]

theorem claim7_witness :
    m2.maxi = true ∧
    (commit_turn m2 alice (Except.ok (4, sb0)) 6).1.saved_rerolls alice =
      m2.saved_rerolls alice + (2 - (m2.reroll : Int)) := by
  have h := (claim7_thm m2 reach_m2 alice (Except.ok (4, sb0)) 6 4
    (by rfl)).1 rfl
  exact ⟨rfl, h.1⟩

/-- C10: the roster is non-empty in every reachable state — the creator is
the sole member at construction, the owner stays a member through every
`del_player`, and so `start_game` can never fail with the empty-roster
error. -/
theorem claim10_thm (g : Game) (hr : Reachable g) :
    g.players ≠ [] ∧ g.owner ∈ g.players ∧
    (∀ p shuffled sb t,
      (start_game g p shuffled sb t).2 ≠ Except.error Err.emptyRoster) ∧
    (∀ o y f m t gg, new_game o y f m t = Except.ok gg →
      gg.players = [o]) ∧
    (∀ p, g.owner ∈ (del_player g p).1.players) := by
  have hinv := reachable_inv hr
  have hne : g.players ≠ [] := List.ne_nil_of_mem hinv.owner_mem
  refine ⟨hne, hinv.owner_mem, ?_, ?_, ?_⟩
  · intro p shuffled sb t hcontra
    unfold start_game at hcontra
    split at hcontra
    · simp at hcontra
    · split at hcontra
      · next h2 => exact hne (List.length_eq_zero.1 (by omega))
      · split at hcontra
        · simp at hcontra
        · simp at hcontra
  · intro o y f m t gg hg
    unfold new_game at hg
    split at hg
    · exact absurd hg (by simp)
    · cases hg
      rfl
  · intro p
    have hd := inv_del_player hinv p
    have howner : (del_player g p).1.owner = g.owner := by
      unfold del_player
      split
      · rfl
      · split
        · rfl
        · split
          · unfold stop_game stop_apply
            split <;> rfl
          · rfl
    rw [← howner]
    exact hd.owner_mem

theorem claim10_witness :
    g0.players ≠ [] ∧
    (start_game g0 bob [] sb0 9).2 ≠ Except.error Err.emptyRoster :=
  ⟨(claim10_thm g0 reach_g0).1,
   (claim10_thm g0 reach_g0).2.2.1 bob [] sb0 9⟩

end Yatzy
